import Mathlib

/-!
Verification development for a two-stage scanner/recognizer pipeline over a
simplified C-like language (file Scanner_Parser.py).  The lexical scanner is
modelled as a character-level scan that reproduces the semantics of the
combined regular expression used by the source (ordered alternatives with
maximal munching inside each alternative, unmatched characters skipped one at
a time, as re.finditer does).  The recursive-descent recognizer is modelled as
a family of fuel-indexed functions on an explicit cursor; fuel adequacy is
proved separately, so that the recognizer is shown to terminate on every
finite token list.  Character classes model the ASCII fragments of the
patterns, which is the fragment all inputs of interest live in.
-/

/-- Token kinds, exactly the group names of the token specification in
Scanner_Parser.py, plus the EOF sentinel produced by Parser.peek. -/
inductive Kind where
  | NUMBER | ID | KEYWORD | OP | SEMI | LPAREN | RPAREN | LBRACE | RBRACE | EOF
deriving DecidableEq, Repr

/-- A token is a pair of kind and lexeme, as the tuples built by Scanner.tokenize. -/
abbrev Token := Kind × String

/-- The keyword set of Scanner.__init__. -/
def keywords : List String :=
  ["int", "float", "double", "bool", "if", "else", "while",
   "for", "true", "false", "return", "main"]

/-- Start character of an identifier: the class of letters and underscore. -/
def isIdStart (c : Char) : Bool := c.isAlpha || c = '_'

/-- Continuation character of an identifier: the word class (ASCII fragment). -/
def isIdChar (c : Char) : Bool := c.isAlphanum || c = '_'

/-- The two-character operator alternatives, in the order they appear in the
operator pattern of Scanner.__init__. -/
def twoCharOps : List String := ["==", "!=", "<=", ">=", "&&", "||", "++", "--"]

/-- The single-character operator class of the operator pattern. -/
def oneCharOps : List Char := ['+', '-', '*', '/', '%', '=', '<', '>']

/-- Attempted two-character operator match at the current position: the
two-character alternatives come before the single-character class, so they
win whenever the next two characters form one of them. -/
def twoCharAt (c : Char) (cs : List Char) : Option String :=
  match cs with
  | c2 :: _ => if String.mk [c, c2] ∈ twoCharOps then some (String.mk [c, c2]) else none
  | [] => none

/-- One step of the scan at a position whose first character is c and whose
remaining characters are cs.  Returns the token produced at this position (or
none for skipped whitespace, newline, and characters matched by no rule) and
how many characters of cs are consumed in addition to c.  The branches follow
the alternation order of the combined pattern: NUMBER, ID, OP, SEMI, LPAREN,
RPAREN, LBRACE, RBRACE, SKIP, NEWLINE; a character matching no alternative is
passed over by re.finditer without producing anything. -/
def step (c : Char) (cs : List Char) : Option Token × Nat :=
  if c.isDigit then
    -- NUMBER: digits, optionally followed by a dot and more digits
    let ds := cs.takeWhile Char.isDigit
    match cs.drop ds.length with
    | '.' :: cs2 =>
      let fs := cs2.takeWhile Char.isDigit
      (some (Kind.NUMBER, String.mk (c :: (ds ++ '.' :: fs))), ds.length + 1 + fs.length)
    | _ => (some (Kind.NUMBER, String.mk (c :: ds)), ds.length)
  else if isIdStart c then
    -- ID, reclassified to KEYWORD when the lexeme is in the keyword set
    let ws := cs.takeWhile isIdChar
    let v := String.mk (c :: ws)
    (some (if v ∈ keywords then Kind.KEYWORD else Kind.ID, v), ws.length)
  else
    match twoCharAt c cs with
    | some s => (some (Kind.OP, s), 1)
    | none =>
      if c ∈ oneCharOps then (some (Kind.OP, String.mk [c]), 0)
      else if c = ';' then (some (Kind.SEMI, String.mk [c]), 0)
      else if c = '(' then (some (Kind.LPAREN, String.mk [c]), 0)
      else if c = ')' then (some (Kind.RPAREN, String.mk [c]), 0)
      else if c = '\x7b' then (some (Kind.LBRACE, String.mk [c]), 0)
      else if c = '\x7d' then (some (Kind.RBRACE, String.mk [c]), 0)
      else if c = ' ' || c = '\t' then
        -- SKIP: a maximal run of spaces and tabs, producing no token
        (none, (cs.takeWhile (fun x => x = ' ' || x = '\t')).length)
      else
        -- NEWLINE (no token), or a character matched by no rule, which
        -- re.finditer silently passes over one character at a time
        (none, 0)

/-- The scan over the whole character list, emitting tokens left to right.
Each step consumes at least one character, so a fuel equal to the length of
the list is always sufficient; the fuel only makes the recursion structural. -/
def scanAuxF : Nat → List Char → List Token
  | _, [] => []
  | 0, _ :: _ => []
  | fuel + 1, c :: cs =>
    match step c cs with
    | (some t, n) => t :: scanAuxF fuel (cs.drop n)
    | (none, n) => scanAuxF fuel (cs.drop n)

/-- The scan with its canonical, always-sufficient fuel. -/
def scanAux (l : List Char) : List Token := scanAuxF l.length l

/-- Scanner.tokenize: the token list of a source string. -/
def tokenize (code : String) : List Token := scanAux code.toList

/-- Any fuel at least the length of the list gives the same scan result, so
scanAux really is the scan of the source, independent of the fuel bookkeeping. -/
theorem scanAuxF_congr : ∀ (f g : Nat) (l : List Char),
    l.length ≤ f → l.length ≤ g → scanAuxF f l = scanAuxF g l := by
  intro f
  induction f with
  | zero =>
    intro g l hf _
    cases l with
    | nil => cases g <;> rfl
    | cons c cs => simp at hf
  | succ f ih =>
    intro g l hf hg
    cases l with
    | nil => cases g <;> rfl
    | cons c cs =>
      cases g with
      | zero => simp at hg
      | succ g =>
        simp only [scanAuxF]
        have hd : ∀ n, (cs.drop n).length ≤ f := by
          intro n
          have := List.length_drop n cs
          simp at hf
          omega
        have hd2 : ∀ n, (cs.drop n).length ≤ g := by
          intro n
          have := List.length_drop n cs
          simp at hg
          omega
        rcases hstep : step c cs with ⟨t?, n⟩
        cases t? <;> simp [ih g (cs.drop n) (hd n) (hd2 n)]

/-- Unfolding equation for scanAux on a cons cell. -/
theorem scanAux_cons (c : Char) (cs : List Char) :
    scanAux (c :: cs) =
      match step c cs with
      | (some t, n) => t :: scanAux (cs.drop n)
      | (none, n) => scanAux (cs.drop n) := by
  show scanAuxF (cs.length + 1) (c :: cs) = _
  simp only [scanAuxF]
  rcases hstep : step c cs with ⟨t?, n⟩
  have h1 : (cs.drop n).length ≤ cs.length := by
    have := List.length_drop n cs; omega
  cases t? <;>
    simp [scanAux, scanAuxF_congr cs.length (cs.drop n).length (cs.drop n) h1 le_rfl]

example : tokenize "int x = 5;" =
    [(Kind.KEYWORD, "int"), (Kind.ID, "x"), (Kind.OP, "="),
     (Kind.NUMBER, "5"), (Kind.SEMI, ";")] := by decide

example : tokenize "<=" = [(Kind.OP, "<=")] := by decide

example : tokenize "@" = [] := by decide

example : tokenize "returning" = [(Kind.ID, "returning")] := by decide

example : tokenize "5.25 x" = [(Kind.NUMBER, "5.25"), (Kind.ID, "x")] := by decide

/-- The apostrophe character, used when rendering tokens the way Python
formats a tuple of strings inside an f-string. -/
def apos : String := String.mk [Char.ofNat 39]

/-- Python repr of one token tuple, as interpolated into the error messages:
a parenthesized pair of single-quoted strings. -/
def tokRepr (t : Token) : String :=
  let kindName : String :=
    match t.1 with
    | Kind.NUMBER => "NUMBER"
    | Kind.ID => "ID"
    | Kind.KEYWORD => "KEYWORD"
    | Kind.OP => "OP"
    | Kind.SEMI => "SEMI"
    | Kind.LPAREN => "LPAREN"
    | Kind.RPAREN => "RPAREN"
    | Kind.LBRACE => "LBRACE"
    | Kind.RBRACE => "RBRACE"
    | Kind.EOF => "EOF"
  "(" ++ apos ++ kindName ++ apos ++ ", " ++ apos ++ t.2 ++ apos ++ ")"

/-- Parser.peek: the token at a cursor position, or the EOF sentinel. -/
def peek (tks : List Token) (pos : Nat) : Token :=
  match tks.get? pos with
  | some t => t
  | none => (Kind.EOF, "")

/-- Parser.match: consumes the current token and yields the advanced cursor
when its kind (and, when given, its exact lexeme) agrees with the expectation;
yields none, with the cursor conceptually unchanged, otherwise. -/
def matchTk (tks : List Token) (pos : Nat) (k : Kind) (v : Option String) : Option Nat :=
  if (peek tks pos).1 = k ∧ (v = none ∨ v = some (peek tks pos).2) then some (pos + 1)
  else none

/-- The set of operator lexemes accepted by the chain-continuation test of
Parser.expression, exactly as written there. -/
def contOps : List String :=
  ["+", "-", "*", "/", "%", "||", "&&", "==", "!=", "<", "<=", ">", ">="]

/-- The type keywords that route Parser.statement to declaration. -/
def typeKeywords : List String := ["int", "float", "double", "bool"]

mutual

/-- Parser.statement: dispatch on the current token, no consumption here;
yields the bool result together with the cursor.  none means out of fuel. -/
def statement (tks : List Token) : Nat → Nat → Option (Except String (Bool × Nat))
  | 0, _ => none
  | fuel + 1, pos =>
    let t := peek tks pos
    if t.1 = Kind.KEYWORD ∧ t.2 ∈ typeKeywords then declaration tks fuel pos
    else if t.1 = Kind.ID then assignment tks fuel pos
    else if t.1 = Kind.KEYWORD ∧ t.2 = "if" then if_statement tks fuel pos
    else if t.1 = Kind.KEYWORD ∧ t.2 = "while" then while_loop tks fuel pos
    else if t.1 = Kind.KEYWORD ∧ t.2 = "for" then for_loop tks fuel pos
    else if t.1 = Kind.KEYWORD ∧ t.2 = "return" then return_statement tks fuel pos
    else some (Except.ok (false, pos))
termination_by structural fuel => fuel

/-- Parser.declaration: skip the type keyword, identifier, optional
initializer, then the semicolon check that decides the bool result. -/
def declaration (tks : List Token) : Nat → Nat → Option (Except String (Bool × Nat))
  | 0, _ => none
  | fuel + 1, pos =>
    let p1 := pos + 1
    match matchTk tks p1 Kind.ID none with
    | none => some (Except.ok (false, p1))
    | some p2 =>
      let init : Option (Except String Nat) :=
        match matchTk tks p2 Kind.OP (some "=") with
        | some p3 => expression tks fuel p3
        | none => some (Except.ok p2)
      match init with
      | none => none
      | some (Except.error e) => some (Except.error e)
      | some (Except.ok p4) =>
        match matchTk tks p4 Kind.SEMI none with
        | some p5 => some (Except.ok (true, p5))
        | none => some (Except.ok (false, p4))

/-- Parser.assignment: skip the identifier, then equals sign, expression and
the semicolon check that decides the bool result. -/
def assignment (tks : List Token) : Nat → Nat → Option (Except String (Bool × Nat))
  | 0, _ => none
  | fuel + 1, pos =>
    let p1 := pos + 1
    match matchTk tks p1 Kind.OP (some "=") with
    | none => some (Except.ok (false, p1))
    | some p2 =>
      match expression tks fuel p2 with
      | none => none
      | some (Except.error e) => some (Except.error e)
      | some (Except.ok p3) =>
        match matchTk tks p3 Kind.SEMI none with
        | some p4 => some (Except.ok (true, p4))
        | none => some (Except.ok (false, p3))

/-- Parser.expression: one term, then the operator-chain loop. -/
def expression (tks : List Token) : Nat → Nat → Option (Except String Nat)
  | 0, _ => none
  | fuel + 1, pos =>
    match term tks fuel pos with
    | none => none
    | some (Except.error e) => some (Except.error e)
    | some (Except.ok p1) => exprLoop tks fuel p1
termination_by structural fuel => fuel

/-- The while loop inside Parser.expression: match an OP token, then test the
lexeme just consumed against the continuation set; when the test fails the
operator stays consumed but the loop stops. -/
def exprLoop (tks : List Token) : Nat → Nat → Option (Except String Nat)
  | 0, _ => none
  | fuel + 1, pos =>
    match matchTk tks pos Kind.OP none with
    | none => some (Except.ok pos)
    | some p1 =>
      if (peek tks (p1 - 1)).2 ∈ contOps then
        match term tks fuel p1 with
        | none => none
        | some (Except.error e) => some (Except.error e)
        | some (Except.ok p2) => exprLoop tks fuel p2
      else some (Except.ok p1)
termination_by structural fuel => fuel

/-- Parser.term: a number, identifier or keyword token, or a parenthesized
expression; anything else raises. -/
def term (tks : List Token) : Nat → Nat → Option (Except String Nat)
  | 0, _ => none
  | fuel + 1, pos =>
    let t := peek tks pos
    if t.1 = Kind.NUMBER ∨ t.1 = Kind.ID ∨ t.1 = Kind.KEYWORD then
      some (Except.ok (pos + 1))
    else
      match matchTk tks pos Kind.LPAREN none with
      | some p1 =>
        match expression tks fuel p1 with
        | none => none
        | some (Except.error e) => some (Except.error e)
        | some (Except.ok p2) =>
          match matchTk tks p2 Kind.RPAREN none with
          | some p3 => some (Except.ok p3)
          | none => some (Except.error "Missing closing parenthesis")
      | none =>
        some (Except.error ("Unexpected token in term: " ++ tokRepr (peek tks pos)))
termination_by structural fuel => fuel

/-- Parser.if_statement. -/
def if_statement (tks : List Token) : Nat → Nat → Option (Except String (Bool × Nat))
  | 0, _ => none
  | fuel + 1, pos =>
    let p1 := pos + 1
    match matchTk tks p1 Kind.LPAREN none with
    | none => some (Except.error ("Missing " ++ apos ++ "(" ++ apos ++ " after if"))
    | some p2 =>
      match expression tks fuel p2 with
      | none => none
      | some (Except.error e) => some (Except.error e)
      | some (Except.ok p3) =>
        match matchTk tks p3 Kind.RPAREN none with
        | none => some (Except.error ("Missing " ++ apos ++ ")" ++ apos ++ " after if condition"))
        | some p4 =>
          match block tks fuel p4 with
          | none => none
          | some (Except.error e) => some (Except.error e)
          | some (Except.ok (false, _)) => some (Except.error "Missing block after if")
          | some (Except.ok (true, p5)) =>
            match matchTk tks p5 Kind.KEYWORD (some "else") with
            | none => some (Except.ok (true, p5))
            | some p6 =>
              match block tks fuel p6 with
              | none => none
              | some (Except.error e) => some (Except.error e)
              | some (Except.ok (false, _)) => some (Except.error "Missing block after else")
              | some (Except.ok (true, p7)) => some (Except.ok (true, p7))
termination_by structural fuel => fuel

/-- Parser.while_loop. -/
def while_loop (tks : List Token) : Nat → Nat → Option (Except String (Bool × Nat))
  | 0, _ => none
  | fuel + 1, pos =>
    let p1 := pos + 1
    match matchTk tks p1 Kind.LPAREN none with
    | none => some (Except.error ("Missing " ++ apos ++ "(" ++ apos ++ " after while"))
    | some p2 =>
      match expression tks fuel p2 with
      | none => none
      | some (Except.error e) => some (Except.error e)
      | some (Except.ok p3) =>
        match matchTk tks p3 Kind.RPAREN none with
        | none => some (Except.error ("Missing " ++ apos ++ ")" ++ apos ++ " after while condition"))
        | some p4 =>
          match block tks fuel p4 with
          | none => none
          | some (Except.error e) => some (Except.error e)
          | some (Except.ok (false, _)) => some (Except.error "Missing block after while")
          | some (Except.ok (true, p5)) => some (Except.ok (true, p5))
termination_by structural fuel => fuel

/-- Parser.for_loop: the initializer reuses statement and the increment reuses
assignment; both boolean results are discarded, as is the result of the
semicolon match after the condition. -/
def for_loop (tks : List Token) : Nat → Nat → Option (Except String (Bool × Nat))
  | 0, _ => none
  | fuel + 1, pos =>
    let p1 := pos + 1
    match matchTk tks p1 Kind.LPAREN none with
    | none => some (Except.error ("Missing " ++ apos ++ "(" ++ apos ++ " after for"))
    | some p2 =>
      match statement tks fuel p2 with
      | none => none
      | some (Except.error e) => some (Except.error e)
      | some (Except.ok (_, p3)) =>
        match expression tks fuel p3 with
        | none => none
        | some (Except.error e) => some (Except.error e)
        | some (Except.ok p4) =>
          let p5 := (matchTk tks p4 Kind.SEMI none).getD p4
          match assignment tks fuel p5 with
          | none => none
          | some (Except.error e) => some (Except.error e)
          | some (Except.ok (_, p6)) =>
            match matchTk tks p6 Kind.RPAREN none with
            | none => some (Except.error ("Missing " ++ apos ++ ")" ++ apos ++ " after for loop"))
            | some p7 =>
              match block tks fuel p7 with
              | none => none
              | some (Except.error e) => some (Except.error e)
              | some (Except.ok (false, _)) => some (Except.error "Missing block after for")
              | some (Except.ok (true, p8)) => some (Except.ok (true, p8))
termination_by structural fuel => fuel

/-- Parser.return_statement. -/
def return_statement (tks : List Token) : Nat → Nat → Option (Except String (Bool × Nat))
  | 0, _ => none
  | fuel + 1, pos =>
    let p1 := pos + 1
    match expression tks fuel p1 with
    | none => none
    | some (Except.error e) => some (Except.error e)
    | some (Except.ok p2) =>
      match matchTk tks p2 Kind.SEMI none with
      | some p3 => some (Except.ok (true, p3))
      | none => some (Except.error ("Missing " ++ apos ++ ";" ++ apos ++ " after return"))

/-- Parser.block: an opening brace, then the statement loop until the
closing brace. -/
def block (tks : List Token) : Nat → Nat → Option (Except String (Bool × Nat))
  | 0, _ => none
  | fuel + 1, pos =>
    match matchTk tks pos Kind.LBRACE none with
    | none => some (Except.ok (false, pos))
    | some p1 =>
      match blockLoop tks fuel p1 with
      | none => none
      | some (Except.error e) => some (Except.error e)
      | some (Except.ok p2) => some (Except.ok (true, p2))
termination_by structural fuel => fuel

/-- The while loop inside Parser.block: try the closing brace first, otherwise
demand a successful statement and continue. -/
def blockLoop (tks : List Token) : Nat → Nat → Option (Except String Nat)
  | 0, _ => none
  | fuel + 1, pos =>
    match matchTk tks pos Kind.RBRACE none with
    | some p1 => some (Except.ok p1)
    | none =>
      match statement tks fuel pos with
      | none => none
      | some (Except.error e) => some (Except.error e)
      | some (Except.ok (true, p2)) => blockLoop tks fuel p2
      | some (Except.ok (false, p2)) =>
        some (Except.error ("Invalid statement in block: " ++ tokRepr (peek tks p2)))

termination_by structural fuel => fuel
end

/-- The top-level statement loop of Parser.parse: while the cursor has not
reached the end, demand a successful statement. -/
def stmtLoop (tks : List Token) : Nat → Nat → Option (Except String Unit)
  | 0, _ => none
  | fuel + 1, pos =>
    if pos < tks.length then
      match statement tks fuel pos with
      | none => none
      | some (Except.error e) => some (Except.error e)
      | some (Except.ok (true, p)) => stmtLoop tks fuel p
      | some (Except.ok (false, p)) =>
        some (Except.error ("Unexpected token: " ++ tokRepr (peek tks p)))
    else some (Except.ok ())

/-- The optional main prologue of Parser.parse: a short-circuit chain of four
match calls; each successful match stays consumed even when a later one fails. -/
def prolog (tks : List Token) : Bool × Nat :=
  match matchTk tks 0 Kind.KEYWORD (some "int") with
  | none => (false, 0)
  | some p1 =>
    match matchTk tks p1 Kind.KEYWORD (some "main") with
    | none => (false, p1)
    | some p2 =>
      match matchTk tks p2 Kind.LPAREN none with
      | none => (false, p2)
      | some p3 =>
        match matchTk tks p3 Kind.RPAREN none with
        | none => (false, p3)
        | some p4 => (true, p4)

/-- The outcome of one parse: the accepted message or the single syntax error. -/
inductive Outcome where
  | Accepted
  | Rejected (msg : String)
deriving DecidableEq, Repr

/-- Conversion of the propagated exception value into the printed outcome. -/
def excToOutcome : Except String Unit → Outcome
  | Except.ok _ => Outcome.Accepted
  | Except.error e => Outcome.Rejected e

/-- Fuel that is always sufficient for one parse of the given token list
(proved below); 4 per remaining token plus a constant head start. -/
def fuelBound (tks : List Token) : Nat := 4 * (tks.length + 1) + 6

/-- Parser.parse: the optional main prologue, the mandatory block after a
fully matched prologue, then the top-level statement loop.  A SyntaxError
anywhere becomes the single Rejected outcome; none means out of fuel. -/
def parse (tks : List Token) : Option Outcome :=
  match prolog tks with
  | (true, p) =>
    match block tks (fuelBound tks) p with
    | none => none
    | some (Except.error e) => some (Outcome.Rejected e)
    | some (Except.ok (false, _)) => some (Outcome.Rejected "Missing block after main()")
    | some (Except.ok (true, p1)) => (stmtLoop tks (fuelBound tks) p1).map excToOutcome
  | (false, p) => (stmtLoop tks (fuelBound tks) p).map excToOutcome

example : parse (tokenize "int x = 5;") = some Outcome.Accepted := by decide

example : parse (tokenize "int x = 5") =
    some (Outcome.Rejected ("Unexpected token: " ++ tokRepr (Kind.EOF, ""))) := by decide

example : parse (tokenize "for (int i = 0; i < 10; i = i + 1) \x7b \x7d") =
    some Outcome.Accepted := by decide

example : parse (tokenize "int main() \x7b int y = 2; \x7d") = some Outcome.Accepted := by
  decide

example : parse (tokenize "if (x == 1) \x7b int y = 2; \x7d else \x7b y = 3; \x7d") =
    some Outcome.Accepted := by decide

/-- A successful match always advances the cursor by exactly one. -/
theorem matchTk_some_eq {tks : List Token} {pos : Nat} {k : Kind} {v : Option String}
    {p : Nat} (h : matchTk tks pos k v = some p) : p = pos + 1 := by
  unfold matchTk at h
  split at h
  · exact (Option.some.injEq _ _ ▸ h).symm ▸ rfl
  · cases h

/-- A non-EOF kind can only be matched strictly inside the token list. -/
theorem matchTk_some_lt {tks : List Token} {pos : Nat} {k : Kind} {v : Option String}
    {p : Nat} (h : matchTk tks pos k v = some p) (hk : k ≠ Kind.EOF) :
    pos < tks.length := by
  unfold matchTk at h
  split at h
  case isTrue hc =>
    by_contra hge
    have hnone : tks.get? pos = none := by
      rw [List.get?_eq_none]
      omega
    have : (peek tks pos).1 = Kind.EOF := by
      unfold peek
      rw [hnone]
    exact hk (this ▸ hc.1.symm ▸ rfl)
  · cases h

/-- A peeked token of non-EOF kind witnesses that the cursor is in range. -/
theorem peek_ne_eof_lt {tks : List Token} {pos : Nat}
    (h : (peek tks pos).1 ≠ Kind.EOF) : pos < tks.length := by
  by_contra hge
  have hnone : tks.get? pos = none := by
    rw [List.get?_eq_none]
    omega
  apply h
  unfold peek
  rw [hnone]

/-- Fuel adequacy statement for term: with fuel at least linear in the number
of remaining tokens, term does not run out of fuel, and on success the cursor
has advanced and stays within the list. -/
def TermOk (tks : List Token) (fuel : Nat) : Prop :=
  ∀ pos, 4 * (tks.length + 1 - pos) + 1 ≤ fuel →
    ∃ r, term tks fuel pos = some r ∧
      ∀ p, r = Except.ok p → pos < p ∧ p ≤ tks.length

/-- Fuel adequacy for the operator-chain loop of expression. -/
def ExprLoopOk (tks : List Token) (fuel : Nat) : Prop :=
  ∀ pos, 4 * (tks.length + 1 - pos) + 1 ≤ fuel →
    ∃ r, exprLoop tks fuel pos = some r ∧
      ∀ p, r = Except.ok p → pos ≤ p ∧ (pos < p → p ≤ tks.length)

/-- Fuel adequacy for expression. -/
def ExprOk (tks : List Token) (fuel : Nat) : Prop :=
  ∀ pos, 4 * (tks.length + 1 - pos) + 2 ≤ fuel →
    ∃ r, expression tks fuel pos = some r ∧
      ∀ p, r = Except.ok p → pos < p ∧ p ≤ tks.length

/-- Fuel adequacy for declaration.  The cursor may step one past the end via
the unconditional advance over the type slot, hence the disjunction. -/
def DeclOk (tks : List Token) (fuel : Nat) : Prop :=
  ∀ pos, 4 * (tks.length + 1 - pos) + 1 ≤ fuel →
    ∃ r, declaration tks fuel pos = some r ∧
      ∀ b p, r = Except.ok (b, p) → pos < p ∧ (p ≤ tks.length ∨ p = pos + 1)

/-- Fuel adequacy for assignment, with the same shape as declaration. -/
def AssignOk (tks : List Token) (fuel : Nat) : Prop :=
  ∀ pos, 4 * (tks.length + 1 - pos) + 1 ≤ fuel →
    ∃ r, assignment tks fuel pos = some r ∧
      ∀ b p, r = Except.ok (b, p) → pos < p ∧ (p ≤ tks.length ∨ p = pos + 1)

/-- Fuel adequacy for if_statement. -/
def IfOk (tks : List Token) (fuel : Nat) : Prop :=
  ∀ pos, 4 * (tks.length + 1 - pos) + 2 ≤ fuel →
    ∃ r, if_statement tks fuel pos = some r ∧
      ∀ b p, r = Except.ok (b, p) → pos < p ∧ p ≤ tks.length

/-- Fuel adequacy for while_loop. -/
def WhileOk (tks : List Token) (fuel : Nat) : Prop :=
  ∀ pos, 4 * (tks.length + 1 - pos) + 2 ≤ fuel →
    ∃ r, while_loop tks fuel pos = some r ∧
      ∀ b p, r = Except.ok (b, p) → pos < p ∧ p ≤ tks.length

/-- Fuel adequacy for for_loop. -/
def ForOk (tks : List Token) (fuel : Nat) : Prop :=
  ∀ pos, 4 * (tks.length + 1 - pos) + 2 ≤ fuel →
    ∃ r, for_loop tks fuel pos = some r ∧
      ∀ b p, r = Except.ok (b, p) → pos < p ∧ p ≤ tks.length

/-- Fuel adequacy for return_statement. -/
def RetOk (tks : List Token) (fuel : Nat) : Prop :=
  ∀ pos, 4 * (tks.length + 1 - pos) + 3 ≤ fuel →
    ∃ r, return_statement tks fuel pos = some r ∧
      ∀ b p, r = Except.ok (b, p) → pos < p ∧ p ≤ tks.length

/-- Fuel adequacy for statement.  A false result may leave the cursor where
it was (the no-rule dispatch case); any advance stays within the list. -/
def StmtOk (tks : List Token) (fuel : Nat) : Prop :=
  ∀ pos, 4 * (tks.length + 1 - pos) + 4 ≤ fuel →
    ∃ r, statement tks fuel pos = some r ∧
      ∀ b p, r = Except.ok (b, p) →
        pos ≤ p ∧ (b = true → pos < p) ∧ (p ≤ tks.length ∨ p = pos)

/-- Fuel adequacy for block. -/
def BlockOk (tks : List Token) (fuel : Nat) : Prop :=
  ∀ pos, 4 * (tks.length + 1 - pos) + 2 ≤ fuel →
    ∃ r, block tks fuel pos = some r ∧
      ∀ b p, r = Except.ok (b, p) →
        (b = true → pos < p ∧ p ≤ tks.length) ∧ (b = false → p = pos)

/-- Fuel adequacy for the statement loop inside block. -/
def BlockLoopOk (tks : List Token) (fuel : Nat) : Prop :=
  ∀ pos, 4 * (tks.length + 1 - pos) + 5 ≤ fuel →
    ∃ r, blockLoop tks fuel pos = some r ∧
      ∀ p, r = Except.ok p → pos < p ∧ p ≤ tks.length

/-- Fuel adequacy for the top-level statement loop of parse. -/
def StmtLoopOk (tks : List Token) (fuel : Nat) : Prop :=
  ∀ pos, 4 * (tks.length + 1 - pos) + 5 ≤ fuel →
    ∃ r, stmtLoop tks fuel pos = some r

/-- One fuel step for term, given adequacy of expression below it. -/
theorem term_ok_step {tks : List Token} {fuel : Nat}
    (hexpr : ExprOk tks fuel) : TermOk tks (fuel + 1) := by
  intro pos hle
  simp only [term]
  split
  case isTrue hkind =>
    refine ⟨Except.ok (pos + 1), rfl, ?_⟩
    intro p hp
    cases hp
    have hlt : pos < tks.length := by
      apply peek_ne_eof_lt
      rcases hkind with h | h | h <;> simp [h]
    omega
  case isFalse hkind =>
    rcases hm : matchTk tks pos Kind.LPAREN none with _ | p1
    · exact ⟨_, rfl, by intro p hp; cases hp⟩
    · have hp1 : p1 = pos + 1 := matchTk_some_eq hm
      have hlt : pos < tks.length := matchTk_some_lt hm (by intro h; cases h)
      obtain ⟨r, hr, hpost⟩ := hexpr p1 (by omega)
      dsimp only
      rw [hr]
      rcases r with e | p2
      · exact ⟨_, rfl, by intro p hp; cases hp⟩
      · have hb := hpost p2 rfl
        dsimp only
        rcases hm2 : matchTk tks p2 Kind.RPAREN none with _ | p3
        · exact ⟨_, rfl, by intro p hp; cases hp⟩
        · have hp3 : p3 = p2 + 1 := matchTk_some_eq hm2
          have hlt2 : p2 < tks.length := matchTk_some_lt hm2 (by intro h; cases h)
          refine ⟨_, rfl, ?_⟩
          intro p hp
          cases hp
          omega

/-- One fuel step for the operator-chain loop, given adequacy of term and of
the loop itself below it. -/
theorem exprLoop_ok_step {tks : List Token} {fuel : Nat}
    (hterm : TermOk tks fuel) (hloop : ExprLoopOk tks fuel) :
    ExprLoopOk tks (fuel + 1) := by
  intro pos hle
  simp only [exprLoop]
  rcases hm : matchTk tks pos Kind.OP none with _ | p1
  · exact ⟨_, rfl, by intro p hp; cases hp; omega⟩
  · have hp1 : p1 = pos + 1 := matchTk_some_eq hm
    have hlt : pos < tks.length := matchTk_some_lt hm (by intro h; cases h)
    dsimp only
    split
    case isTrue hc =>
      obtain ⟨r, hr, hpost⟩ := hterm p1 (by omega)
      rw [hr]
      rcases r with e | p2
      · exact ⟨_, rfl, by intro p hp; cases hp⟩
      · have hb := hpost p2 rfl
        obtain ⟨r2, hr2, hpost2⟩ := hloop p2 (by omega)
        dsimp only
        rw [hr2]
        refine ⟨r2, rfl, ?_⟩
        intro p hp
        have hb2 := hpost2 p hp
        rcases Nat.eq_or_lt_of_le hb2.1 with heq | hlt2
        · constructor <;> omega
        · have := hb2.2 hlt2
          constructor <;> omega
    case isFalse hc =>
      exact ⟨_, rfl, by intro p hp; cases hp; constructor <;> omega⟩

/-- One fuel step for expression, given adequacy of term and the chain loop. -/
theorem expr_ok_step {tks : List Token} {fuel : Nat}
    (hterm : TermOk tks fuel) (hloop : ExprLoopOk tks fuel) :
    ExprOk tks (fuel + 1) := by
  intro pos hle
  simp only [expression]
  obtain ⟨r, hr, hpost⟩ := hterm pos (by omega)
  rw [hr]
  rcases r with e | p1
  · exact ⟨_, rfl, by intro p hp; cases hp⟩
  · have hb := hpost p1 rfl
    obtain ⟨r2, hr2, hpost2⟩ := hloop p1 (by omega)
    dsimp only
    rw [hr2]
    refine ⟨r2, rfl, ?_⟩
    intro p hp
    have hb2 := hpost2 p hp
    rcases Nat.eq_or_lt_of_le hb2.1 with heq | hlt2
    · constructor <;> omega
    · have := hb2.2 hlt2
      constructor <;> omega

/-- One fuel step for declaration, given adequacy of expression. -/
theorem decl_ok_step {tks : List Token} {fuel : Nat}
    (hexpr : ExprOk tks fuel) : DeclOk tks (fuel + 1) := by
  intro pos hle
  simp only [declaration]
  rcases hm : matchTk tks (pos + 1) Kind.ID none with _ | p2
  · exact ⟨_, rfl, by intro b p hp; cases hp; exact ⟨by omega, Or.inr rfl⟩⟩
  · have hp2 := matchTk_some_eq hm
    have hlt1 : pos + 1 < tks.length := matchTk_some_lt hm (by intro h; cases h)
    dsimp only
    rcases hm2 : matchTk tks p2 Kind.OP (some "=") with _ | p3
    · dsimp only
      rcases hm3 : matchTk tks p2 Kind.SEMI none with _ | p5
      · exact ⟨_, rfl, by intro b p hp; cases hp; exact ⟨by omega, Or.inl (by omega)⟩⟩
      · have hp5 := matchTk_some_eq hm3
        have hlt2 : p2 < tks.length := matchTk_some_lt hm3 (by intro h; cases h)
        exact ⟨_, rfl, by intro b p hp; cases hp; exact ⟨by omega, Or.inl (by omega)⟩⟩
    · have hp3 := matchTk_some_eq hm2
      have hlt2 : p2 < tks.length := matchTk_some_lt hm2 (by intro h; cases h)
      obtain ⟨r, hr, hpost⟩ := hexpr p3 (by omega)
      dsimp only
      rw [hr]
      rcases r with e | p4
      · exact ⟨_, rfl, by intro b p hp; cases hp⟩
      · have hb := hpost p4 rfl
        dsimp only
        rcases hm3 : matchTk tks p4 Kind.SEMI none with _ | p5
        · exact ⟨_, rfl, by intro b p hp; cases hp; exact ⟨by omega, Or.inl (by omega)⟩⟩
        · have hp5 := matchTk_some_eq hm3
          have hlt3 : p4 < tks.length := matchTk_some_lt hm3 (by intro h; cases h)
          exact ⟨_, rfl, by intro b p hp; cases hp; exact ⟨by omega, Or.inl (by omega)⟩⟩

/-- One fuel step for assignment, given adequacy of expression. -/
theorem assign_ok_step {tks : List Token} {fuel : Nat}
    (hexpr : ExprOk tks fuel) : AssignOk tks (fuel + 1) := by
  intro pos hle
  simp only [assignment]
  rcases hm : matchTk tks (pos + 1) Kind.OP (some "=") with _ | p2
  · exact ⟨_, rfl, by intro b p hp; cases hp; exact ⟨by omega, Or.inr rfl⟩⟩
  · have hp2 := matchTk_some_eq hm
    have hlt1 : pos + 1 < tks.length := matchTk_some_lt hm (by intro h; cases h)
    obtain ⟨r, hr, hpost⟩ := hexpr p2 (by omega)
    dsimp only
    rw [hr]
    rcases r with e | p3
    · exact ⟨_, rfl, by intro b p hp; cases hp⟩
    · have hb := hpost p3 rfl
      dsimp only
      rcases hm3 : matchTk tks p3 Kind.SEMI none with _ | p4
      · exact ⟨_, rfl, by intro b p hp; cases hp; exact ⟨by omega, Or.inl (by omega)⟩⟩
      · have hp4 := matchTk_some_eq hm3
        have hlt2 : p3 < tks.length := matchTk_some_lt hm3 (by intro h; cases h)
        exact ⟨_, rfl, by intro b p hp; cases hp; exact ⟨by omega, Or.inl (by omega)⟩⟩

/-- One fuel step for return_statement, given adequacy of expression. -/
theorem ret_ok_step {tks : List Token} {fuel : Nat}
    (hexpr : ExprOk tks fuel) : RetOk tks (fuel + 1) := by
  intro pos hle
  simp only [return_statement]
  obtain ⟨r, hr, hpost⟩ := hexpr (pos + 1) (by omega)
  rw [hr]
  rcases r with e | p2
  · exact ⟨_, rfl, by intro b p hp; cases hp⟩
  · have hb := hpost p2 rfl
    dsimp only
    rcases hm : matchTk tks p2 Kind.SEMI none with _ | p3
    · exact ⟨_, rfl, by intro b p hp; cases hp⟩
    · have hp3 := matchTk_some_eq hm
      have hlt : p2 < tks.length := matchTk_some_lt hm (by intro h; cases h)
      exact ⟨_, rfl, by intro b p hp; cases hp; exact ⟨by omega, by omega⟩⟩

/-- One fuel step for if_statement, given adequacy of expression and block. -/
theorem if_ok_step {tks : List Token} {fuel : Nat}
    (hexpr : ExprOk tks fuel) (hblock : BlockOk tks fuel) : IfOk tks (fuel + 1) := by
  intro pos hle
  simp only [if_statement]
  rcases hm : matchTk tks (pos + 1) Kind.LPAREN none with _ | p2
  · exact ⟨_, rfl, by intro b p hp; cases hp⟩
  · have hp2 := matchTk_some_eq hm
    have hlt1 : pos + 1 < tks.length := matchTk_some_lt hm (by intro h; cases h)
    obtain ⟨r, hr, hpost⟩ := hexpr p2 (by omega)
    dsimp only
    rw [hr]
    rcases r with e | p3
    · exact ⟨_, rfl, by intro b p hp; cases hp⟩
    · have hb := hpost p3 rfl
      dsimp only
      rcases hm2 : matchTk tks p3 Kind.RPAREN none with _ | p4
      · exact ⟨_, rfl, by intro b p hp; cases hp⟩
      · have hp4 := matchTk_some_eq hm2
        have hlt2 : p3 < tks.length := matchTk_some_lt hm2 (by intro h; cases h)
        obtain ⟨r2, hr2, hpost2⟩ := hblock p4 (by omega)
        dsimp only
        rw [hr2]
        rcases r2 with e | ⟨b2, p5⟩
        · exact ⟨_, rfl, by intro b p hp; cases hp⟩
        · have hb2 := hpost2 b2 p5 rfl
          cases b2
          · exact ⟨_, rfl, by intro b p hp; cases hp⟩
          · have hb2t := hb2.1 rfl
            dsimp only
            rcases hm3 : matchTk tks p5 Kind.KEYWORD (some "else") with _ | p6
            · exact ⟨_, rfl, by intro b p hp; cases hp; exact ⟨by omega, by omega⟩⟩
            · have hp6 := matchTk_some_eq hm3
              have hlt3 : p5 < tks.length := matchTk_some_lt hm3 (by intro h; cases h)
              obtain ⟨r3, hr3, hpost3⟩ := hblock p6 (by omega)
              dsimp only
              rw [hr3]
              rcases r3 with e | ⟨b3, p7⟩
              · exact ⟨_, rfl, by intro b p hp; cases hp⟩
              · have hb3 := hpost3 b3 p7 rfl
                cases b3
                · exact ⟨_, rfl, by intro b p hp; cases hp⟩
                · have hb3t := hb3.1 rfl
                  exact ⟨_, rfl, by intro b p hp; cases hp; exact ⟨by omega, by omega⟩⟩

/-- One fuel step for while_loop, given adequacy of expression and block. -/
theorem while_ok_step {tks : List Token} {fuel : Nat}
    (hexpr : ExprOk tks fuel) (hblock : BlockOk tks fuel) : WhileOk tks (fuel + 1) := by
  intro pos hle
  simp only [while_loop]
  rcases hm : matchTk tks (pos + 1) Kind.LPAREN none with _ | p2
  · exact ⟨_, rfl, by intro b p hp; cases hp⟩
  · have hp2 := matchTk_some_eq hm
    have hlt1 : pos + 1 < tks.length := matchTk_some_lt hm (by intro h; cases h)
    obtain ⟨r, hr, hpost⟩ := hexpr p2 (by omega)
    dsimp only
    rw [hr]
    rcases r with e | p3
    · exact ⟨_, rfl, by intro b p hp; cases hp⟩
    · have hb := hpost p3 rfl
      dsimp only
      rcases hm2 : matchTk tks p3 Kind.RPAREN none with _ | p4
      · exact ⟨_, rfl, by intro b p hp; cases hp⟩
      · have hp4 := matchTk_some_eq hm2
        have hlt2 : p3 < tks.length := matchTk_some_lt hm2 (by intro h; cases h)
        obtain ⟨r2, hr2, hpost2⟩ := hblock p4 (by omega)
        dsimp only
        rw [hr2]
        rcases r2 with e | ⟨b2, p5⟩
        · exact ⟨_, rfl, by intro b p hp; cases hp⟩
        · have hb2 := hpost2 b2 p5 rfl
          cases b2
          · exact ⟨_, rfl, by intro b p hp; cases hp⟩
          · have hb2t := hb2.1 rfl
            exact ⟨_, rfl, by intro b p hp; cases hp; exact ⟨by omega, by omega⟩⟩

/-- One fuel step for for_loop, given adequacy of statement, expression,
assignment and block. -/
theorem for_ok_step {tks : List Token} {fuel : Nat}
    (hstmt : StmtOk tks fuel) (hexpr : ExprOk tks fuel)
    (hassign : AssignOk tks fuel) (hblock : BlockOk tks fuel) :
    ForOk tks (fuel + 1) := by
  intro pos hle
  simp only [for_loop]
  rcases hm : matchTk tks (pos + 1) Kind.LPAREN none with _ | p2
  · exact ⟨_, rfl, by intro b p hp; cases hp⟩
  · have hp2 := matchTk_some_eq hm
    have hlt1 : pos + 1 < tks.length := matchTk_some_lt hm (by intro h; cases h)
    obtain ⟨r, hr, hpost⟩ := hstmt p2 (by omega)
    dsimp only
    rw [hr]
    rcases r with e | ⟨b1, p3⟩
    · exact ⟨_, rfl, by intro b p hp; cases hp⟩
    · have hb1 := hpost b1 p3 rfl
      obtain ⟨r2, hr2, hpost2⟩ := hexpr p3 (by rcases hb1.2.2 with h | h <;> omega)
      dsimp only
      rw [hr2]
      rcases r2 with e | p4
      · exact ⟨_, rfl, by intro b p hp; cases hp⟩
      · have hb2 := hpost2 p4 rfl
        have hp3le : p3 ≤ tks.length := by
          rcases hb1.2.2 with h | h <;> omega
        -- the discarded semicolon match
        rcases hm5 : matchTk tks p4 Kind.SEMI none with _ | q
        all_goals simp only [hm5, Option.getD]
        · obtain ⟨r3, hr3, hpost3⟩ := hassign p4 (by omega)
          rw [hr3]
          rcases r3 with e | ⟨b2, p6⟩
          · exact ⟨_, rfl, by intro b p hp; cases hp⟩
          · have hb3 := hpost3 b2 p6 rfl
            dsimp only
            rcases hm6 : matchTk tks p6 Kind.RPAREN none with _ | p7
            · exact ⟨_, rfl, by intro b p hp; cases hp⟩
            · have hp7 := matchTk_some_eq hm6
              have hlt6 : p6 < tks.length := matchTk_some_lt hm6 (by intro h; cases h)
              obtain ⟨r4, hr4, hpost4⟩ := hblock p7 (by omega)
              dsimp only
              rw [hr4]
              rcases r4 with e | ⟨b3, p8⟩
              · exact ⟨_, rfl, by intro b p hp; cases hp⟩
              · have hb4 := hpost4 b3 p8 rfl
                cases b3
                · exact ⟨_, rfl, by intro b p hp; cases hp⟩
                · have hb4t := hb4.1 rfl
                  exact ⟨_, rfl, by intro b p hp; cases hp; exact ⟨by omega, by omega⟩⟩
        · have hq := matchTk_some_eq hm5
          have hltq : p4 < tks.length := matchTk_some_lt hm5 (by intro h; cases h)
          obtain ⟨r3, hr3, hpost3⟩ := hassign q (by omega)
          rw [hr3]
          rcases r3 with e | ⟨b2, p6⟩
          · exact ⟨_, rfl, by intro b p hp; cases hp⟩
          · have hb3 := hpost3 b2 p6 rfl
            dsimp only
            rcases hm6 : matchTk tks p6 Kind.RPAREN none with _ | p7
            · exact ⟨_, rfl, by intro b p hp; cases hp⟩
            · have hp7 := matchTk_some_eq hm6
              have hlt6 : p6 < tks.length := matchTk_some_lt hm6 (by intro h; cases h)
              obtain ⟨r4, hr4, hpost4⟩ := hblock p7 (by omega)
              dsimp only
              rw [hr4]
              rcases r4 with e | ⟨b3, p8⟩
              · exact ⟨_, rfl, by intro b p hp; cases hp⟩
              · have hb4 := hpost4 b3 p8 rfl
                cases b3
                · exact ⟨_, rfl, by intro b p hp; cases hp⟩
                · have hb4t := hb4.1 rfl
                  exact ⟨_, rfl, by intro b p hp; cases hp; exact ⟨by omega, by omega⟩⟩

/-- One fuel step for statement, given adequacy of every production it can
dispatch to. -/
theorem stmt_ok_step {tks : List Token} {fuel : Nat}
    (hdecl : DeclOk tks fuel) (hassign : AssignOk tks fuel) (hif : IfOk tks fuel)
    (hwhile : WhileOk tks fuel) (hfor : ForOk tks fuel) (hret : RetOk tks fuel) :
    StmtOk tks (fuel + 1) := by
  intro pos hle
  simp only [statement]
  split
  · case isTrue hc =>
    have hlt : pos < tks.length := peek_ne_eof_lt (by rw [hc.1]; decide)
    obtain ⟨r, hr, hpost⟩ := hdecl pos (by omega)
    refine ⟨r, hr, ?_⟩
    intro b p hp
    have h := hpost b p hp
    rcases h.2 with h2 | h2 <;> exact ⟨by omega, fun _ => by omega, Or.inl (by omega)⟩
  · split
    · case isTrue hc =>
      have hlt : pos < tks.length := peek_ne_eof_lt (by rw [hc]; decide)
      obtain ⟨r, hr, hpost⟩ := hassign pos (by omega)
      refine ⟨r, hr, ?_⟩
      intro b p hp
      have h := hpost b p hp
      rcases h.2 with h2 | h2 <;> exact ⟨by omega, fun _ => by omega, Or.inl (by omega)⟩
    · split
      · case isTrue hc =>
        obtain ⟨r, hr, hpost⟩ := hif pos (by omega)
        refine ⟨r, hr, ?_⟩
        intro b p hp
        have h := hpost b p hp
        exact ⟨by omega, fun _ => by omega, Or.inl (by omega)⟩
      · split
        · case isTrue hc =>
          obtain ⟨r, hr, hpost⟩ := hwhile pos (by omega)
          refine ⟨r, hr, ?_⟩
          intro b p hp
          have h := hpost b p hp
          exact ⟨by omega, fun _ => by omega, Or.inl (by omega)⟩
        · split
          · case isTrue hc =>
            obtain ⟨r, hr, hpost⟩ := hfor pos (by omega)
            refine ⟨r, hr, ?_⟩
            intro b p hp
            have h := hpost b p hp
            exact ⟨by omega, fun _ => by omega, Or.inl (by omega)⟩
          · split
            · case isTrue hc =>
              obtain ⟨r, hr, hpost⟩ := hret pos (by omega)
              refine ⟨r, hr, ?_⟩
              intro b p hp
              have h := hpost b p hp
              exact ⟨by omega, fun _ => by omega, Or.inl (by omega)⟩
            · refine ⟨_, rfl, ?_⟩
              intro b p hp
              cases hp
              exact ⟨le_rfl, fun h => absurd h (by decide), Or.inr rfl⟩

/-- One fuel step for block, given adequacy of its statement loop. -/
theorem block_ok_step {tks : List Token} {fuel : Nat}
    (hbl : BlockLoopOk tks fuel) : BlockOk tks (fuel + 1) := by
  intro pos hle
  simp only [block]
  rcases hm : matchTk tks pos Kind.LBRACE none with _ | p1
  · refine ⟨_, rfl, ?_⟩
    intro b p hp
    cases hp
    exact ⟨fun h => absurd h (by decide), fun _ => rfl⟩
  · have hp1 := matchTk_some_eq hm
    have hlt : pos < tks.length := matchTk_some_lt hm (by intro h; cases h)
    obtain ⟨r, hr, hpost⟩ := hbl p1 (by omega)
    dsimp only
    rw [hr]
    rcases r with e | p2
    · exact ⟨_, rfl, by intro b p hp; cases hp⟩
    · have hb := hpost p2 rfl
      refine ⟨_, rfl, ?_⟩
      intro b p hp
      cases hp
      exact ⟨fun _ => ⟨by omega, by omega⟩, fun h => absurd h (by decide)⟩

/-- One fuel step for the loop inside block, given adequacy of statement and
of the loop itself below it. -/
theorem blockLoop_ok_step {tks : List Token} {fuel : Nat}
    (hstmt : StmtOk tks fuel) (hbl : BlockLoopOk tks fuel) :
    BlockLoopOk tks (fuel + 1) := by
  intro pos hle
  simp only [blockLoop]
  rcases hm : matchTk tks pos Kind.RBRACE none with _ | p1
  · obtain ⟨r, hr, hpost⟩ := hstmt pos (by omega)
    dsimp only
    rw [hr]
    rcases r with e | ⟨b, p2⟩
    · exact ⟨_, rfl, by intro p hp; cases hp⟩
    · cases b
      · exact ⟨_, rfl, by intro p hp; cases hp⟩
      · have hb := hpost true p2 rfl
        have hlt2 : pos < p2 := hb.2.1 rfl
        have hle2 : p2 ≤ tks.length := by rcases hb.2.2 with h | h <;> omega
        obtain ⟨r2, hr2, hpost2⟩ := hbl p2 (by omega)
        dsimp only
        rw [hr2]
        refine ⟨r2, rfl, ?_⟩
        intro p hp
        have := hpost2 p hp
        omega
  · have hp1 := matchTk_some_eq hm
    have hlt : pos < tks.length := matchTk_some_lt hm (by intro h; cases h)
    exact ⟨_, rfl, by intro p hp; cases hp; omega⟩

/-- One fuel step for the top-level statement loop of parse. -/
theorem stmtLoop_ok_step {tks : List Token} {fuel : Nat}
    (hstmt : StmtOk tks fuel) (hloop : StmtLoopOk tks fuel) :
    StmtLoopOk tks (fuel + 1) := by
  intro pos hle
  simp only [stmtLoop]
  split
  · case isTrue hlt =>
    obtain ⟨r, hr, hpost⟩ := hstmt pos (by omega)
    rw [hr]
    rcases r with e | ⟨b, p⟩
    · exact ⟨_, rfl⟩
    · cases b
      · exact ⟨_, rfl⟩
      · have hb := hpost true p rfl
        have h1 : pos < p := hb.2.1 rfl
        have h2 : p ≤ tks.length := by rcases hb.2.2 with h | h <;> omega
        obtain ⟨r2, hr2⟩ := hloop p (by omega)
        dsimp only
        rw [hr2]
        exact ⟨r2, rfl⟩
  · exact ⟨_, rfl⟩

/-- The conjunction of all fuel adequacy statements. -/
def AllOk (tks : List Token) (fuel : Nat) : Prop :=
  TermOk tks fuel ∧ ExprLoopOk tks fuel ∧ ExprOk tks fuel ∧ DeclOk tks fuel ∧
  AssignOk tks fuel ∧ IfOk tks fuel ∧ WhileOk tks fuel ∧ ForOk tks fuel ∧
  RetOk tks fuel ∧ StmtOk tks fuel ∧ BlockOk tks fuel ∧ BlockLoopOk tks fuel ∧
  StmtLoopOk tks fuel

/-- Every recognizer rule runs to completion whenever its fuel dominates the
linear bound on the remaining tokens; proved by induction on the fuel, one
step lemma per rule. -/
theorem allOk (tks : List Token) : ∀ fuel, AllOk tks fuel := by
  intro fuel
  induction fuel with
  | zero =>
    refine ⟨?_, ?_, ?_, ?_, ?_, ?_, ?_, ?_, ?_, ?_, ?_, ?_, ?_⟩ <;>
      exact fun pos h => absurd h (by omega)
  | succ fuel ih =>
    obtain ⟨hterm, hel, hexpr, hdecl, hassign, hif, hwhile, hfor, hret,
      hstmt, hblock, hbl, hloop⟩ := ih
    exact ⟨term_ok_step hexpr, exprLoop_ok_step hterm hel,
      expr_ok_step hterm hel, decl_ok_step hexpr, assign_ok_step hexpr,
      if_ok_step hexpr hblock, while_ok_step hexpr hblock,
      for_ok_step hstmt hexpr hassign hblock, ret_ok_step hexpr,
      stmt_ok_step hdecl hassign hif hwhile hfor hret,
      block_ok_step hbl, blockLoop_ok_step hstmt hbl,
      stmtLoop_ok_step hstmt hloop⟩

/-- parse never runs out of fuel at its canonical fuel bound. -/
theorem parse_total (tks : List Token) : ∃ o, parse tks = some o := by
  have hall := allOk tks (fuelBound tks)
  obtain ⟨-, -, -, -, -, -, -, -, -, -, hblock, -, hloop⟩ := hall
  unfold parse
  rcases hp : prolog tks with ⟨b, p⟩
  cases b
  · obtain ⟨r, hr⟩ := hloop p (by unfold fuelBound; omega)
    dsimp only
    rw [hr]
    exact ⟨excToOutcome r, rfl⟩
  · obtain ⟨r, hr, hpost⟩ := hblock p (by unfold fuelBound; omega)
    dsimp only
    rw [hr]
    rcases r with e | ⟨b2, p1⟩
    · exact ⟨_, rfl⟩
    · cases b2
      · exact ⟨_, rfl⟩
      · obtain ⟨r2, hr2⟩ := hloop p1 (by unfold fuelBound; omega)
        dsimp only
        rw [hr2]
        exact ⟨excToOutcome r2, rfl⟩

/-- No two-character operator begins with a character outside the start set
of the two-character alternatives. -/
theorem twoCharAt_none {c : Char} (cs : List Char)
    (h : ¬ c ∈ (['=', '!', '<', '>', '&', '|', '+', '-'] : List Char)) :
    twoCharAt c cs = none := by
  unfold twoCharAt
  cases cs with
  | nil => rfl
  | cons c2 rest =>
    dsimp only
    rw [if_neg]
    intro hmem
    apply h
    simp only [twoCharOps, List.mem_cons, List.not_mem_nil, or_false] at hmem
    rcases hmem with hm|hm|hm|hm|hm|hm|hm|hm <;>
      (rw [String.ext_iff] at hm
       simp at hm
       simp [hm.1])

/-- The scan step on a space: the whole run of spaces and tabs is consumed
and no token is produced. -/
theorem step_space (cs : List Char) :
    step ' ' cs = (none, (cs.takeWhile (fun x => x = ' ' || x = '\t')).length) := by
  unfold step
  rw [twoCharAt_none cs (by decide)]
  rfl

/-- The scan step on a tab, as for a space. -/
theorem step_tab (cs : List Char) :
    step '\t' cs = (none, (cs.takeWhile (fun x => x = ' ' || x = '\t')).length) := by
  unfold step
  rw [twoCharAt_none cs (by decide)]
  rfl

/-- The scan step on a newline: consumed alone, no token. -/
theorem step_newline (cs : List Char) : step '\n' cs = (none, 0) := by
  unfold step
  rw [twoCharAt_none cs (by decide)]
  rfl

/-- On whitespace-only input the scan produces no tokens at all. -/
theorem scanAux_ws : ∀ (n : Nat) (l : List Char), l.length ≤ n →
    (∀ c ∈ l, c = ' ' ∨ c = '\t' ∨ c = '\n') → scanAux l = [] := by
  intro n
  induction n with
  | zero =>
    intro l hl _
    cases l with
    | nil => rfl
    | cons c cs => simp at hl
  | succ n ih =>
    intro l hl hws
    cases l with
    | nil => rfl
    | cons c cs =>
      rw [scanAux_cons]
      have hlen : ∀ k, (cs.drop k).length ≤ n := by
        intro k
        have := List.length_drop k cs
        simp at hl
        omega
      have hmem : ∀ k, ∀ x ∈ cs.drop k, x = ' ' ∨ x = '\t' ∨ x = '\n' := by
        intro k x hx
        exact hws x (List.mem_cons_of_mem c (List.mem_of_mem_drop hx))
      rcases hws c (List.mem_cons_self c cs) with hc | hc | hc <;> subst hc
      · rw [step_space]
        exact ih _ (hlen _) (hmem _)
      · rw [step_tab]
        exact ih _ (hlen _) (hmem _)
      · rw [step_newline]
        exact ih _ (hlen _) (hmem _)

/-- A token produced by one scan step is never an ID whose lexeme lies in the
keyword set: the reclassification in tokenize resolves that case to KEYWORD. -/
theorem step_no_id_keyword {c : Char} {cs : List Char} {t : Token} {n : Nat}
    (h : step c cs = (some t, n)) : t.1 = Kind.ID → ¬ t.2 ∈ keywords := by
  unfold step at h
  dsimp only at h
  split at h
  · split at h <;> (cases h; intro ht; cases ht)
  · split at h
    · split at h
      case isTrue hkw =>
        cases h
        intro ht
        cases ht
      case isFalse hkw =>
        cases h
        intro ht hm
        exact hkw hm
    · split at h
      · cases h
        intro ht
        cases ht
      · repeat' split at h
        all_goals first | (cases h; intro ht; cases ht) | simp at h

/-- The keyword invariant over the whole scan: no token of the output is an
ID whose lexeme lies in the keyword set. -/
theorem scanAux_no_id_keyword : ∀ (n : Nat) (l : List Char), l.length ≤ n →
    ∀ t ∈ scanAux l, t.1 = Kind.ID → ¬ t.2 ∈ keywords := by
  intro n
  induction n with
  | zero =>
    intro l hl t ht
    cases l with
    | nil => cases ht
    | cons c cs => simp at hl
  | succ n ih =>
    intro l hl t ht
    cases l with
    | nil => cases ht
    | cons c cs =>
      rw [scanAux_cons] at ht
      have hlen : ∀ k, (cs.drop k).length ≤ n := by
        intro k
        have := List.length_drop k cs
        simp at hl
        omega
      rcases hstep : step c cs with ⟨t?, k⟩
      rw [hstep] at ht
      cases t? with
      | none =>
        exact ih _ (hlen k) t ht
      | some t0 =>
        rcases List.mem_cons.mp ht with heq | hmem
        · subst heq
          exact step_no_id_keyword hstep
        · exact ih _ (hlen k) t hmem

/-- A position at which no lexical rule matches: the character begins no
number, no identifier, no operator (two-character lookahead included), no
punctuation, and no whitespace or newline rule. -/
def noLexRule (c : Char) (cs : List Char) : Prop :=
  c.isDigit = false ∧ isIdStart c = false ∧ twoCharAt c cs = none ∧
  ¬ c ∈ oneCharOps ∧ c ≠ ';' ∧ c ≠ '(' ∧ c ≠ ')' ∧ c ≠ '\x7b' ∧ c ≠ '\x7d' ∧
  c ≠ ' ' ∧ c ≠ '\t' ∧ c ≠ '\n'

instance (c : Char) (cs : List Char) : Decidable (noLexRule c cs) := by
  unfold noLexRule
  infer_instance

/-- At a position matched by no lexical rule, the scan step produces nothing
and consumes only that character. -/
theorem step_unmatched {c : Char} {cs : List Char} (h : noLexRule c cs) :
    step c cs = (none, 0) := by
  obtain ⟨hd, hi, h2, h1, hsemi, hlp, hrp, hlb, hrb, hsp, htab, hnl⟩ := h
  unfold step
  rw [h2]
  simp only [hd, hi, Bool.false_eq_true, if_false]
  rw [if_neg h1, if_neg hsemi, if_neg hlp, if_neg hrp, if_neg hlb, if_neg hrb,
    if_neg (by simp [hsp, htab])]

/-- A match with an expected lexeme succeeds exactly when peek yields that
kind and lexeme. -/
theorem matchTk_some_of_peek {tks : List Token} {pos : Nat} {k : Kind} {v : String}
    (h : peek tks pos = (k, v)) : matchTk tks pos k (some v) = some (pos + 1) := by
  unfold matchTk
  rw [if_pos]
  exact ⟨by rw [h], Or.inr (by rw [h])⟩

/-- A match with an expected lexeme fails when peek yields anything else. -/
theorem matchTk_none_of_peek_ne {tks : List Token} {pos : Nat} {k : Kind} {v : String}
    (h : peek tks pos ≠ (k, v)) : matchTk tks pos k (some v) = none := by
  unfold matchTk
  rw [if_neg]
  rintro ⟨hk, hv | hv⟩
  · cases hv
  · apply h
    refine Prod.ext_iff.mpr ⟨hk, ?_⟩
    injection hv with hv2
    exact hv2.symm

/-- A kind-only match succeeds exactly when peek yields that kind. -/
theorem matchTk_kind_some {tks : List Token} {pos : Nat} {k : Kind}
    (h : (peek tks pos).1 = k) : matchTk tks pos k none = some (pos + 1) := by
  unfold matchTk
  rw [if_pos ⟨h, Or.inl rfl⟩]

/-- A kind-only match fails when peek yields another kind. -/
theorem matchTk_kind_none {tks : List Token} {pos : Nat} {k : Kind}
    (h : (peek tks pos).1 ≠ k) : matchTk tks pos k none = none := by
  unfold matchTk
  rw [if_neg]
  rintro ⟨hk, -⟩
  exact h hk

/-- Whether the token in slot i satisfies step i of the main-prologue match
chain of parse (int, main, left paren, right paren). -/
def prologMatches (tks : List Token) : Nat → Bool
  | 0 => decide (peek tks 0 = (Kind.KEYWORD, "int"))
  | 1 => decide (peek tks 1 = (Kind.KEYWORD, "main"))
  | 2 => decide ((peek tks 2).1 = Kind.LPAREN)
  | 3 => decide ((peek tks 3).1 = Kind.RPAREN)
  | _ => true

/-- Claim C1, as stated, is false: on the token sequence of "int x = 5" the
parse is Rejected, but the message is the generic unexpected-token report for
the EOF sentinel raised by the top-level statement loop, and it contains no
semicolon at all, so it does not reference the missing semicolon expectation. -/
theorem C1_counterexample :
    tokenize "int x = 5" =
      [(Kind.KEYWORD, "int"), (Kind.ID, "x"), (Kind.OP, "="), (Kind.NUMBER, "5")] ∧
    parse (tokenize "int x = 5") =
      some (Outcome.Rejected ("Unexpected token: " ++ tokRepr (Kind.EOF, ""))) ∧
    ¬ ';' ∈ ("Unexpected token: " ++ tokRepr (Kind.EOF, "")).toList := by
  refine ⟨by decide, by decide, by decide⟩

/-- Claim C1 amended: parse on the tokens of "int x = 5" returns Rejected,
but the message is the generic unexpected-token report for the EOF sentinel:
assignment signals the missing semicolon only by returning False with the
cursor at the end, and the statement loop of parse turns that False into its
own unexpected-token error. -/
theorem C1_amended :
    assignment (tokenize "int x = 5") (fuelBound (tokenize "int x = 5")) 1 =
      some (Except.ok (false, 4)) ∧
    parse (tokenize "int x = 5") =
      some (Outcome.Rejected ("Unexpected token: " ++ tokRepr (Kind.EOF, ""))) := by
  refine ⟨by rfl, by decide⟩

/-- Claim C3: in for_loop the boolean result of assignment is discarded, so
although the increment clause of "for (int i = 0; i < 10; i = i + 1) { }"
makes assignment return False at the closing parenthesis (no trailing
semicolon to match), the whole source is still Accepted end to end. -/
theorem C3_for_quirk :
    assignment (tokenize "for (int i = 0; i < 10; i = i + 1) \x7b \x7d")
      (fuelBound (tokenize "for (int i = 0; i < 10; i = i + 1) \x7b \x7d")) 11 =
      some (Except.ok (false, 16)) ∧
    parse (tokenize "for (int i = 0; i < 10; i = i + 1) \x7b \x7d") =
      some Outcome.Accepted := by
  refine ⟨by rfl, by decide⟩

/-- Claim C5: "int x = 5;" tokenizes to exactly the five expected tokens in
order, and parse on that token sequence returns Accepted. -/
theorem C5_roundtrip :
    tokenize "int x = 5;" =
      [(Kind.KEYWORD, "int"), (Kind.ID, "x"), (Kind.OP, "="),
       (Kind.NUMBER, "5"), (Kind.SEMI, ";")] ∧
    parse (tokenize "int x = 5;") = some Outcome.Accepted := by
  refine ⟨by decide, by decide⟩

/-- Claim C6: on every finite token list the recognizer runs to completion at
its canonical fuel bound and produces exactly one outcome, either the single
acceptance signal or a single syntax-error message; no exception escapes,
since every error is converted into the Rejected outcome. -/
theorem C6_parse_total :
    ∀ tks : List Token, ∃ o : Outcome, parse tks = some o ∧
      (o = Outcome.Accepted ∨ ∃ m, o = Outcome.Rejected m) := by
  intro tks
  obtain ⟨o, ho⟩ := parse_total tks
  refine ⟨o, ho, ?_⟩
  cases o
  · exact Or.inl rfl
  · exact Or.inr ⟨_, rfl⟩

/-- Claim C7: an input of spaces, tabs and newlines only (the empty string
included) tokenizes to the empty token sequence, and parse on the empty
sequence returns Accepted. -/
theorem C7_whitespace (s : String)
    (h : ∀ c ∈ s.toList, c = ' ' ∨ c = '\t' ∨ c = '\n') :
    tokenize s = [] ∧ parse [] = some Outcome.Accepted := by
  constructor
  · exact scanAux_ws s.toList.length s.toList le_rfl h
  · decide

/-- Witness for C7 at the concrete whitespace input of a space, a tab and a
newline. -/
theorem C7_whitespace_witness :
    tokenize " \t\n" = [] ∧ parse [] = some Outcome.Accepted :=
  C7_whitespace " \t\n" (by decide)

/-- Claim C8: no token of any scan is an Identifier whose lexeme lies in the
keyword set (keyword reclassification happens at lex time, once), and in
particular "return" lexes to a Keyword token while "returning" lexes to an
Identifier token. -/
theorem C8_keywords :
    (∀ (s : String) (t : Token), t ∈ tokenize s → t.1 = Kind.ID → ¬ t.2 ∈ keywords) ∧
    tokenize "return" = [(Kind.KEYWORD, "return")] ∧
    tokenize "returning" = [(Kind.ID, "returning")] := by
  refine ⟨?_, by decide, by decide⟩
  intro s t ht
  exact scanAux_no_id_keyword s.toList.length s.toList le_rfl t ht

/-- Witness for C8: the Identifier token of "int returning;" is not a
keyword lexeme. -/
theorem C8_keywords_witness :
    (Kind.ID, "returning") ∈ tokenize "int returning;" ∧
    ¬ ((Kind.ID, "returning") : Token).2 ∈ keywords :=
  ⟨by decide, C8_keywords.1 "int returning;" (Kind.ID, "returning") (by decide) (by decide)⟩

/-- Claim C9: the two-character operators are matched before their
single-character prefixes, wherever they occur in the input; in particular
"<=" lexes to the single Operator token "<=" and never to "<" then "=". -/
theorem C9_maximal_munch :
    (∀ rest : List Char, scanAux ('=' :: '=' :: rest) = (Kind.OP, "==") :: scanAux rest) ∧
    (∀ rest : List Char, scanAux ('!' :: '=' :: rest) = (Kind.OP, "!=") :: scanAux rest) ∧
    (∀ rest : List Char, scanAux ('<' :: '=' :: rest) = (Kind.OP, "<=") :: scanAux rest) ∧
    (∀ rest : List Char, scanAux ('>' :: '=' :: rest) = (Kind.OP, ">=") :: scanAux rest) ∧
    (∀ rest : List Char, scanAux ('&' :: '&' :: rest) = (Kind.OP, "&&") :: scanAux rest) ∧
    (∀ rest : List Char, scanAux ('|' :: '|' :: rest) = (Kind.OP, "||") :: scanAux rest) ∧
    (∀ rest : List Char, scanAux ('+' :: '+' :: rest) = (Kind.OP, "++") :: scanAux rest) ∧
    (∀ rest : List Char, scanAux ('-' :: '-' :: rest) = (Kind.OP, "--") :: scanAux rest) ∧
    tokenize "<=" = [(Kind.OP, "<=")] := by
  refine ⟨?_, ?_, ?_, ?_, ?_, ?_, ?_, ?_, by decide⟩ <;>
    (intro rest
     rw [scanAux_cons]
     rfl)

/-- Claim C10: tokenize is total, and a character at which no lexical rule
matches is silently passed over, producing neither a token nor a diagnostic;
in particular tokenize on "@" returns the empty list. -/
theorem C10_skip :
    (∀ (c : Char) (cs : List Char), noLexRule c cs → scanAux (c :: cs) = scanAux cs) ∧
    tokenize "@" = [] := by
  refine ⟨?_, by decide⟩
  intro c cs h
  rw [scanAux_cons, step_unmatched h]
  rfl

/-- Witness for C10 at the concrete unmatched character commercial-at. -/
theorem C10_skip_witness : scanAux ['@'] = scanAux [] ∧ tokenize "@" = [] :=
  ⟨C10_skip.1 '@' [] (by decide), C10_skip.2⟩

/-- Claim C2, as stated, is false: the operator lexeme "++" is an Operator
token followed by a valid term (term succeeds at the next position), yet the
expression chain does not consume that term; it stops right after the
operator, at cursor 2 instead of 3. -/
theorem C2_counterexample :
    expression [(Kind.ID, "a"), (Kind.OP, "++"), (Kind.ID, "b")] 20 0 =
      some (Except.ok 2) ∧
    ¬ expression [(Kind.ID, "a"), (Kind.OP, "++"), (Kind.ID, "b")] 20 0 =
      some (Except.ok 3) ∧
    term [(Kind.ID, "a"), (Kind.OP, "++"), (Kind.ID, "b")] 20 2 =
      some (Except.ok 3) := by
  refine ⟨by rfl, ?_, by rfl⟩
  intro h
  rw [show expression [(Kind.ID, "a"), (Kind.OP, "++"), (Kind.ID, "b")] 20 0 =
    some (Except.ok 2) from rfl] at h
  simp at h

/-- Claim C2 amended: in the chain-continuation check of expression an
Operator token is always consumed by the match, but only the thirteen lexemes
of the continuation set make the loop consume a following term and continue;
for any other operator lexeme (equals sign, double plus, double minus) the
loop stops immediately after the consumed operator. -/
theorem C2_amended (tks : List Token) (fuel pos : Nat) (v : String)
    (hv : tks.get? pos = some (Kind.OP, v)) :
    (v ∈ contOps → exprLoop tks (fuel + 1) pos =
      match term tks fuel (pos + 1) with
      | none => none
      | some (Except.error e) => some (Except.error e)
      | some (Except.ok p2) => exprLoop tks fuel p2) ∧
    (¬ v ∈ contOps → exprLoop tks (fuel + 1) pos = some (Except.ok (pos + 1))) := by
  have hpeek : peek tks pos = (Kind.OP, v) := by
    unfold peek
    rw [hv]
  have hm : matchTk tks pos Kind.OP none = some (pos + 1) :=
    matchTk_kind_some (by rw [hpeek])
  constructor <;> intro hvc
  · simp only [exprLoop]
    rw [hm]
    dsimp only
    rw [Nat.add_sub_cancel, hpeek, if_pos hvc]
  · simp only [exprLoop]
    rw [hm]
    dsimp only
    rw [Nat.add_sub_cancel, hpeek, if_neg hvc]

/-- Witness for the amended C2 at the operator lexeme equals sign, which the
match consumes although the chain stops without a following term. -/
theorem C2_amended_witness :
    exprLoop [(Kind.OP, "=")] 6 0 = some (Except.ok 1) :=
  (C2_amended [(Kind.OP, "=")] 5 0 "=" (by decide)).2 (by decide)

/-- Claim C4: when the first tokens match a proper nonempty prefix of the
main prologue (int, main, left paren, right paren) and the next prologue step
fails, the matched tokens stay consumed: the prologue reports failure with the
cursor already advanced to the failure point, and parse continues with its
top-level statement loop from that advanced cursor, with no rollback. -/
theorem C4_no_rollback (tks : List Token) (k : Nat) (h1 : 1 ≤ k) (h3 : k ≤ 3)
    (hpre : ∀ i, i < k → prologMatches tks i = true)
    (hfail : prologMatches tks k = false) :
    prolog tks = (false, k) ∧
      parse tks = (stmtLoop tks (fuelBound tks) k).map excToOutcome := by
  have hp : prolog tks = (false, k) := by
    interval_cases k
    · have h0 := of_decide_eq_true (hpre 0 (by omega))
      have hf := of_decide_eq_false hfail
      unfold prolog
      rw [matchTk_some_of_peek h0]
      dsimp only
      rw [matchTk_none_of_peek_ne hf]
    · have h0 := of_decide_eq_true (hpre 0 (by omega))
      have hm1 := of_decide_eq_true (hpre 1 (by omega))
      have hf := of_decide_eq_false hfail
      unfold prolog
      rw [matchTk_some_of_peek h0]
      dsimp only
      rw [matchTk_some_of_peek hm1]
      dsimp only
      rw [matchTk_kind_none hf]
    · have h0 := of_decide_eq_true (hpre 0 (by omega))
      have hm1 := of_decide_eq_true (hpre 1 (by omega))
      have hm2 := of_decide_eq_true (hpre 2 (by omega))
      have hf := of_decide_eq_false hfail
      unfold prolog
      rw [matchTk_some_of_peek h0]
      dsimp only
      rw [matchTk_some_of_peek hm1]
      dsimp only
      rw [matchTk_kind_some hm2]
      dsimp only
      rw [matchTk_kind_none hf]
  refine ⟨hp, ?_⟩
  unfold parse
  rw [hp]

/-- Witness for C4 at a token list matching int and main and then failing:
both matched tokens stay consumed and the statement loop starts at slot 2. -/
theorem C4_no_rollback_witness :
    prolog [(Kind.KEYWORD, "int"), (Kind.KEYWORD, "main"), (Kind.SEMI, ";")] =
      (false, 2) ∧
    parse [(Kind.KEYWORD, "int"), (Kind.KEYWORD, "main"), (Kind.SEMI, ";")] =
      (stmtLoop [(Kind.KEYWORD, "int"), (Kind.KEYWORD, "main"), (Kind.SEMI, ";")]
        (fuelBound [(Kind.KEYWORD, "int"), (Kind.KEYWORD, "main"), (Kind.SEMI, ";")]) 2).map
        excToOutcome :=
  C4_no_rollback [(Kind.KEYWORD, "int"), (Kind.KEYWORD, "main"), (Kind.SEMI, ";")] 2
    (by omega) (by omega)
    (by
      intro i hi
      match i, hi with
      | 0, _ => rfl
      | 1, _ => rfl)
    (by rfl)
